import Mathlib

/-!
# Verification of the Timekeeper pay-period accounting engine

Shallow embedding of `src/script.js` (the client-side logic of the
Timekeeper web application) together with proofs about the behaviour of
its pay-period accounting core: time conversion, pay-period resolution,
worked-minutes computation, log aggregation, the punch-out transition and
the settings / log-update storage operations.

Modelling conventions:
* JavaScript strings are Lean `String`s; character-level operations
  (`split`, `trim`, `padStart`, decimal rendering and parsing) are defined
  on the underlying `List Char`, mirroring the JS semantics on the inputs
  that occur in this program (ASCII digit strings, `,`/`:` separators).
* JavaScript numbers that can be `NaN` on the flows considered are
  modelled as `Option`; `none` stands for `NaN`.
* `Date` values are modelled by their calendar components
  (`year`/`month`/`day`, month 0-based as returned by `getMonth`), and the
  `toISOString().slice(0, 10)` rendering is modelled as the ISO rendering
  of those components (i.e. the program is modelled in a UTC environment,
  matching the spec's stated non-goal of timezone handling).
* JavaScript plain objects used as string-keyed maps are modelled as
  insertion-ordered association lists (object keys of the shapes arising
  here - usernames and ISO dates - enumerate in insertion order).
* `Array.prototype.sort` with a total comparator is modelled by
  `List.insertionSort`, which produces the same (unique) sorted
  permutation.
* Monetary values (`hourlyRate`, `toFixed(2)` results) are modelled in
  `ℚ`; `toFixed(2)`/`formatHours` become rounding to two decimal places.
-/

/-! ## Character and decimal-digit utilities -/

/-- The ASCII digit character for `n` (meaningful for `n ≤ 9`). -/
def digitChar (n : Nat) : Char := Char.ofNat (48 + n)

/-- Is `c` an ASCII decimal digit? -/
def isDigitChar (c : Char) : Bool := 48 ≤ c.toNat && c.toNat ≤ 57

/-- One step of reading a decimal numeral left to right. -/
def digitStep (a : Nat) (c : Char) : Nat := 10 * a + (c.toNat - 48)

/-- Value of a list of digit characters read as a decimal numeral. -/
def digitsVal (cs : List Char) : Nat := cs.foldl digitStep 0

/-- Parse a non-empty all-digit character list as a `Nat`; `none` otherwise.
This models the successful branch of JavaScript numeric parsing of a
decimal digit string. -/
def digitsToNat (cs : List Char) : Option Nat :=
  if cs ≠ [] ∧ cs.all isDigitChar then some (digitsVal cs) else none

/-- Decimal digits of `n`, most significant first, prepended to `acc`.
Fuel-based so that it is structurally recursive (any `fuel > n` is
enough). -/
def natToCharsAux (fuel : Nat) (n : Nat) (acc : List Char) : List Char :=
  match fuel with
  | 0 => acc
  | fuel + 1 =>
    if n < 10 then digitChar n :: acc
    else natToCharsAux fuel (n / 10) (digitChar (n % 10) :: acc)

/-- Decimal rendering of a natural number as a character list; models the
JavaScript `String(n)` conversion for non-negative integers. -/
def natToChars (n : Nat) : List Char := natToCharsAux (n + 1) n []

/-- Model of `String.prototype.padStart(2, '0')` on a character list. -/
def padStart2 (cs : List Char) : List Char :=
  if 2 ≤ cs.length then cs else List.replicate (2 - cs.length) '0' ++ cs

/-- Model of `String.prototype.split(sep)` (single-character separator) on
a character list. Always returns at least one part. -/
def splitOnChar (sep : Char) : List Char → List (List Char)
  | [] => [[]]
  | c :: cs =>
    if c = sep then [] :: splitOnChar sep cs
    else
      match splitOnChar sep cs with
      | [] => [[c]]
      | p :: ps => (c :: p) :: ps

/-- Model of `String.prototype.trim()`: strip leading and trailing
whitespace. -/
def trimChars (cs : List Char) : List Char :=
  ((cs.dropWhile Char.isWhitespace).reverse.dropWhile Char.isWhitespace).reverse

/-- Model of the JavaScript `Number(s)` conversion on the strings that can
reach it in this program: the empty string converts to `0`, a decimal
digit string to its value, anything else to `NaN` (`none`). -/
def jsNumber (cs : List Char) : Option Nat :=
  if cs = [] then some 0 else digitsToNat cs

/-- Model of the JavaScript `parseInt(s)` on trimmed decimal input: an
optional sign followed by a longest (here: maximal leading) run of digits;
`NaN` (`none`) when no leading digit exists. -/
def jsParseInt (cs : List Char) : Option Int :=
  let core : List Char → Option Int := fun ds =>
    match digitsToNat (ds.takeWhile isDigitChar) with
    | some n => some (n : Int)
    | none => none
  match cs with
  | '-' :: rest => (core rest).map (fun n => -n)
  | '+' :: rest => core rest
  | _ => core cs

/-! ## Time conversion (`timeToMinutes`, `minutesToTime`, `script.js`
lines 305-315) -/

/-- Embedding of `timeToMinutes`: split on `':'`, convert the first two
parts with `Number`, return `h * 60 + m`. A missing part is `undefined`,
whose `Number` conversion is `NaN`; `NaN` anywhere makes the result `NaN`
(`none`). -/
def timeToMinutes (timeStr : String) : Option Nat :=
  let parts := splitOnChar ':' timeStr.data
  match parts.head?.bind jsNumber, (parts.drop 1).head?.bind jsNumber with
  | some h, some m => some (h * 60 + m)
  | _, _ => none

/-- Embedding of `minutesToTime`: `floor(mins / 60)` and `mins % 60`, each
rendered in decimal and padded to two characters with `'0'`, joined by
`':'`. -/
def minutesToTime (mins : Nat) : String :=
  String.mk (padStart2 (natToChars (mins / 60)) ++ ':' :: padStart2 (natToChars (mins % 60)))

/-- The canonical zero-padded rendering `"HH:MM"` of an hour/minute pair. -/
def mkHHMM (h m : Nat) : String :=
  String.mk (padStart2 (natToChars h) ++ ':' :: padStart2 (natToChars m))

/-- A string is a well-formed `"HH:MM"` time: two zero-padded digit pairs
with `0 ≤ h ≤ 23` and `0 ≤ m ≤ 59`. -/
def wellFormedHHMM (s : String) : Prop :=
  ∃ h m, h ≤ 23 ∧ m ≤ 59 ∧ s = mkHHMM h m

/-! ## Worked minutes (`computeWorkedMinutes`, `script.js` lines 352-365) -/

/-- Embedding of `computeWorkedMinutes`: difference of the two parsed
times, floored at zero, minus the deduction, floored at zero again. A
`NaN` time (`none`) propagates: every comparison with `NaN` is false, so
the function returns `NaN` (`none`). The result is non-negative whenever
it is a number, hence `Option Nat`. -/
def computeWorkedMinutes (actualIn actualOut : String) (deduction : Int) : Option Nat :=
  match timeToMinutes actualIn, timeToMinutes actualOut with
  | some ai, some ao =>
    let minutes : Int := (ao : Int) - (ai : Int)
    let minutes := if minutes < 0 then 0 else minutes
    let minutes := minutes - deduction
    some (if minutes < 0 then 0 else minutes).toNat
  | _, _ => none

/-! ## Lemmas: decimal digits -/

theorem digitChar_toNat_lt10 : ∀ n < 10, (digitChar n).toNat = 48 + n := by decide

theorem isDigitChar_digitChar : ∀ n < 10, isDigitChar (digitChar n) = true := by decide

theorem digitStep_digitChar (i n : Nat) (hn : n < 10) :
    digitStep i (digitChar n) = 10 * i + n := by
  simp [digitStep, digitChar_toNat_lt10 n hn]

theorem natToCharsAux_spec :
    ∀ fuel n acc, n < fuel →
      ∃ ds, natToCharsAux fuel n acc = ds ++ acc ∧ ds ≠ [] ∧ ds.all isDigitChar ∧
        ∀ i, ds.foldl digitStep i = i * 10 ^ ds.length + n := by
  intro fuel
  induction fuel with
  | zero => intro n acc h; omega
  | succ fuel ih =>
    intro n acc h
    by_cases h10 : n < 10
    · refine ⟨[digitChar n], by simp [natToCharsAux, h10], by simp, ?_, ?_⟩
      · simp [isDigitChar_digitChar n h10]
      · intro i
        simp [List.foldl, digitStep_digitChar i n h10]
        ring
    · obtain ⟨ds, hds, hne, hdig, hval⟩ :=
        ih (n / 10) (digitChar (n % 10) :: acc) (by omega)
      refine ⟨ds ++ [digitChar (n % 10)], ?_, by simp, ?_, ?_⟩
      · simp [natToCharsAux, h10, hds]
      · simp only [List.all_append, hdig, Bool.true_and, List.all_cons, List.all_nil,
          Bool.and_true]
        exact isDigitChar_digitChar (n % 10) (by omega)
      · intro i
        rw [List.foldl_append, hval i]
        simp [List.foldl, digitStep_digitChar _ (n % 10) (by omega), pow_succ]
        ring_nf
        omega

theorem natToChars_spec (n : Nat) :
    natToChars n ≠ [] ∧ (natToChars n).all isDigitChar ∧ digitsVal (natToChars n) = n := by
  obtain ⟨ds, hds, hne, hdig, hval⟩ := natToCharsAux_spec (n + 1) n [] (by omega)
  have h : natToChars n = ds := by simpa [natToChars] using hds
  refine ⟨by simp [h, hne], by simp [h, hdig], ?_⟩
  have := hval 0
  simp [h, digitsVal, this]

theorem digitsVal_replicate_zero_append (k : Nat) (cs : List Char) :
    digitsVal (List.replicate k '0' ++ cs) = digitsVal cs := by
  have hz : ∀ j, (List.replicate j '0').foldl digitStep 0 = 0 := by
    intro j
    induction j with
    | zero => rfl
    | succ j ihj => simpa [List.replicate_succ, List.foldl, digitStep] using ihj
  simp [digitsVal, List.foldl_append, hz k]

theorem all_isDigitChar_replicate_zero (k : Nat) :
    (List.replicate k '0').all isDigitChar = true := by
  rw [List.all_eq_true]
  intro c hc
  rw [List.eq_of_mem_replicate hc]
  decide

theorem padStart2_spec (cs : List Char) (hne : cs ≠ []) (hdig : cs.all isDigitChar) :
    padStart2 cs ≠ [] ∧ (padStart2 cs).all isDigitChar ∧
      digitsVal (padStart2 cs) = digitsVal cs := by
  unfold padStart2
  by_cases h : 2 ≤ cs.length
  · simp [h, hne, hdig]
  · simp only [h, if_false]
    exact ⟨by simp [hne],
      by rw [List.all_append, all_isDigitChar_replicate_zero, hdig]; rfl,
      digitsVal_replicate_zero_append _ cs⟩

theorem digitsToNat_padStart2_natToChars (n : Nat) :
    digitsToNat (padStart2 (natToChars n)) = some n := by
  obtain ⟨hne, hdig, hval⟩ := natToChars_spec n
  obtain ⟨hne2, hdig2, hval2⟩ := padStart2_spec (natToChars n) hne hdig
  simp [digitsToNat, hne2, hdig2, hval2, hval]

theorem not_colon_mem_of_all_digit (cs : List Char) (hdig : cs.all isDigitChar) :
    ':' ∉ cs := by
  intro hmem
  have := List.all_eq_true.mp hdig ':' hmem
  simp [isDigitChar] at this

/-! ## Lemmas: splitting -/

theorem splitOnChar_ne_nil (sep : Char) (cs : List Char) : splitOnChar sep cs ≠ [] := by
  cases cs with
  | nil => simp [splitOnChar]
  | cons c cs =>
    by_cases h : c = sep
    · simp [splitOnChar, h]
    · simp only [splitOnChar, h, if_false]
      cases hsp : splitOnChar sep cs <;> simp

theorem splitOnChar_of_not_mem (sep : Char) (cs : List Char) (h : sep ∉ cs) :
    splitOnChar sep cs = [cs] := by
  induction cs with
  | nil => rfl
  | cons c cs ih =>
    have hc : c ≠ sep := fun hcs => h (hcs ▸ List.mem_cons_self c cs)
    have hrest : sep ∉ cs := fun hm => h (List.mem_cons_of_mem c hm)
    simp [splitOnChar, hc, ih hrest]

theorem splitOnChar_append (sep : Char) (a b : List Char) (h : sep ∉ a) :
    splitOnChar sep (a ++ sep :: b) = a :: splitOnChar sep b := by
  induction a with
  | nil => simp [splitOnChar]
  | cons c a ih =>
    have hc : c ≠ sep := fun hcs => h (hcs ▸ List.mem_cons_self c a)
    have hrest : sep ∉ a := fun hm => h (List.mem_cons_of_mem c hm)
    have hih := ih hrest
    simp only [List.cons_append, splitOnChar, hc, if_false, List.append_eq]
    rw [hih]

/-! ## Lemmas: time conversion round trips -/

theorem jsNumber_padStart2_natToChars (n : Nat) :
    jsNumber (padStart2 (natToChars n)) = some n := by
  obtain ⟨hne, hdig, _⟩ := natToChars_spec n
  obtain ⟨hne2, _, _⟩ := padStart2_spec _ hne hdig
  rw [jsNumber, if_neg hne2, digitsToNat_padStart2_natToChars]

theorem timeToMinutes_mkHHMM (h m : Nat) :
    timeToMinutes (mkHHMM h m) = some (h * 60 + m) := by
  obtain ⟨hneh, hdigh, _⟩ := natToChars_spec h
  obtain ⟨hnem, hdigm, _⟩ := natToChars_spec m
  obtain ⟨hneh2, hdigh2, _⟩ := padStart2_spec _ hneh hdigh
  obtain ⟨hnem2, hdigm2, _⟩ := padStart2_spec _ hnem hdigm
  have hmk : (mkHHMM h m).data
      = padStart2 (natToChars h) ++ ':' :: padStart2 (natToChars m) := rfl
  have hsplit : splitOnChar ':' (mkHHMM h m).data
      = [padStart2 (natToChars h), padStart2 (natToChars m)] := by
    rw [hmk, splitOnChar_append ':' _ _ (not_colon_mem_of_all_digit _ hdigh2),
      splitOnChar_of_not_mem ':' _ (not_colon_mem_of_all_digit _ hdigm2)]
  simp [timeToMinutes, hsplit, jsNumber_padStart2_natToChars]

theorem minutesToTime_eq_mkHHMM (n : Nat) :
    minutesToTime n = mkHHMM (n / 60) (n % 60) := rfl

/-- Claim C10: for every `m ≥ 0`, `timeToMinutes (minutesToTime m) = m`;
`minutesToTime` does not reduce modulo 24 hours (1500 renders as
`"25:00"`, and values `≥ 1440` do not collapse onto their mod-1440
representatives), and `minutesToTime` is injective on the naturals. -/
theorem C10_minutesToTime_roundtrip_no_wrap :
    (∀ m : Nat, timeToMinutes (minutesToTime m) = some m) ∧
    minutesToTime 1500 = "25:00" ∧
    (∀ m : Nat, 1440 ≤ m → minutesToTime m ≠ minutesToTime (m % 1440)) ∧
    Function.Injective minutesToTime := by
  have hround : ∀ m : Nat, timeToMinutes (minutesToTime m) = some m := by
    intro m
    rw [minutesToTime_eq_mkHHMM, timeToMinutes_mkHHMM]
    congr 1
    omega
  have hinj : Function.Injective minutesToTime := by
    intro a b hab
    have ha := hround a
    rw [hab, hround b] at ha
    exact (Option.some_inj.mp ha).symm
  refine ⟨hround, by decide, ?_, hinj⟩
  intro m hm heq
  have := hinj heq
  omega

/-- Witness for C10: the no-wrap conjunct instantiated at 1500. -/
theorem C10_minutesToTime_roundtrip_no_wrap_witness :
    minutesToTime 1500 ≠ minutesToTime (1500 % 1440) :=
  C10_minutesToTime_roundtrip_no_wrap.2.2.1 1500 (by decide)

/-- Claim C9: for every well-formed `"HH:MM"` string (zero-padded digit
pairs, hours 00-23, minutes 00-59), `minutesToTime (timeToMinutes s) = s`. -/
theorem C9_timeToMinutes_roundtrip (s : String) (hwf : wellFormedHHMM s) :
    ∃ n, timeToMinutes s = some n ∧ minutesToTime n = s := by
  obtain ⟨h, m, _, hm, rfl⟩ := hwf
  refine ⟨h * 60 + m, timeToMinutes_mkHHMM h m, ?_⟩
  rw [minutesToTime_eq_mkHHMM]
  have h1 : (h * 60 + m) / 60 = h := by omega
  have h2 : (h * 60 + m) % 60 = m := by omega
  rw [h1, h2]

/-- Witness for C9: the round trip evaluated at `"09:05"`. -/
theorem C9_timeToMinutes_roundtrip_witness :
    ∃ n, timeToMinutes "09:05" = some n ∧ minutesToTime n = "09:05" :=
  C9_timeToMinutes_roundtrip "09:05" ⟨9, 5, by decide, by decide, by decide⟩

/-- Claim C4: on well-formed `"HH:MM"` inputs and a deduction `d ≥ 0`,
`computeWorkedMinutes` parses both times, takes the time-of-day difference
floored at zero (no midnight rollover), subtracts the deduction and floors
at zero again, so the result is a non-negative integer; in particular
`09:00 → 17:00` with deduction 0 gives 480 and the inverted pair gives 0. -/
theorem C4_computeWorkedMinutes_spec :
    (∀ (s1 s2 : String) (d : Int), wellFormedHHMM s1 → wellFormedHHMM s2 → 0 ≤ d →
      ∃ t1 t2 r, timeToMinutes s1 = some t1 ∧ timeToMinutes s2 = some t2 ∧
        computeWorkedMinutes s1 s2 d = some r ∧
        (r : Int) = max 0 (max 0 ((t2 : Int) - (t1 : Int)) - d)) ∧
    computeWorkedMinutes "09:00" "17:00" 0 = some 480 ∧
    computeWorkedMinutes "17:00" "09:00" 0 = some 0 := by
  refine ⟨?_, by decide, by decide⟩
  rintro s1 s2 d ⟨h1, m1, -, -, rfl⟩ ⟨h2, m2, -, -, rfl⟩ hd
  have e1 := timeToMinutes_mkHHMM h1 m1
  have e2 := timeToMinutes_mkHHMM h2 m2
  refine ⟨h1 * 60 + m1, h2 * 60 + m2,
    (max 0 (max 0 ((h2 * 60 + m2 : Int) - (h1 * 60 + m1 : Int)) - d)).toNat,
    e1, e2, ?_, by omega⟩
  simp only [computeWorkedMinutes, e1, e2]
  congr 1
  split_ifs <;> omega

/-- Witness for C4: the specification instantiated at
`("09:00", "17:00", 0)`. -/
theorem C4_computeWorkedMinutes_spec_witness :
    ∃ t1 t2 r, timeToMinutes "09:00" = some t1 ∧ timeToMinutes "17:00" = some t2 ∧
      computeWorkedMinutes "09:00" "17:00" 0 = some r ∧
      (r : Int) = max 0 (max 0 ((t2 : Int) - (t1 : Int)) - 0) :=
  C4_computeWorkedMinutes_spec.1 "09:00" "17:00" 0
    ⟨9, 0, by decide, by decide, by decide⟩
    ⟨17, 0, by decide, by decide, by decide⟩ (by decide)

/-! ## Calendar model and pay period resolver
(`getPayPeriodStart`, `script.js` lines 317-346) -/

/-- A calendar date as exposed by a JS `Date`: `getFullYear`, `getMonth`
(0-based) and `getDate` (1-based day of month). -/
structure JSDate where
  year : Nat
  month : Nat
  day : Nat
deriving DecidableEq, Repr

/-- Gregorian leap-year rule, as implemented by the JS `Date` calendar. -/
def isLeapYear (y : Nat) : Bool :=
  (y % 4 == 0 && y % 100 != 0) || y % 400 == 0

/-- Number of days of the (0-based) month `month` of `year`; models
`new Date(year, month + 1, 0).getDate()` for `month < 12`. -/
def daysInMonth (year month : Nat) : Nat :=
  match month with
  | 1 => if isLeapYear year then 29 else 28
  | 3 => 30
  | 5 => 30
  | 8 => 30
  | 10 => 30
  | _ => 31

/-- Model of `String.prototype.padStart(4, '0')` on a character list. -/
def padStart4 (cs : List Char) : List Char :=
  if 4 ≤ cs.length then cs else List.replicate (4 - cs.length) '0' ++ cs

/-- The `YYYY-MM-DD` rendering of a calendar date (`month` 0-based);
models `new Date(year, month, day).toISOString().slice(0, 10)` in a UTC
environment for years up to 9999. -/
def isoDate (year month day : Nat) : String :=
  String.mk (padStart4 (natToChars year) ++ '-' ::
    (padStart2 (natToChars (month + 1)) ++ '-' :: padStart2 (natToChars day)))

/-- The `for` loop of `getPayPeriodStart`: walk the (sorted) start days
left to right and remember the last one that is `≤ day`. -/
def chooseDay (day : Nat) (startDays : List Nat) : Option Nat :=
  startDays.foldl (fun chosen s => if day ≥ s then some s else chosen) none

/-- Embedding of `getPayPeriodStart`: sort the start days ascending, pick
the last one not after the date's day-of-month; if none qualifies, use the
largest start day in the previous month; clamp to the month's day count
and render as `YYYY-MM-DD`. With an empty `startDays` the original builds
an `Invalid Date` and `toISOString` throws, modelled as `none`. (The
`?? [1, 15]` parameter default is never exercised by the callers modelled
here, which always pass an explicit array.) -/
def getPayPeriodStart (dateObj : JSDate) (startDaysParam : List Nat) : Option String :=
  let startDays := List.insertionSort (· ≤ ·) startDaysParam
  let day := dateObj.day
  let month := dateObj.month
  let year := dateObj.year
  match chooseDay day startDays with
  | none =>
    match startDays.getLast? with
    | none => none
    | some lastDay =>
      let prevMonth := (month + 11) % 12
      let prevYear := if month = 0 then year - 1 else year
      let daysInPrevMonth := daysInMonth prevYear prevMonth
      some (isoDate prevYear prevMonth (min lastDay daysInPrevMonth))
  | some chosenDay =>
    let dim := daysInMonth year month
    some (isoDate year month (min chosenDay dim))

/-- Largest element of a `List Nat`, `none` on the empty list. -/
def listMax : List Nat → Option Nat
  | [] => none
  | x :: xs =>
    match listMax xs with
    | none => some x
    | some y => some (max x y)

/-- The pay-period resolver as described by the specification: the date in
the same month whose day is the largest configured start day `≤` the
date's day-of-month, clamped to that month's day count; when no start day
qualifies, the date in the previous month whose day is the largest
configured start day clamped to that month's day count. Stated with
`listMax` over the raw (unsorted, possibly duplicated) list, for
comparison with the implementation. -/
def resolvePeriodStartSpec (dateObj : JSDate) (startDays : List Nat) : Option String :=
  match listMax (startDays.filter (fun s => s ≤ dateObj.day)) with
  | some s =>
    some (isoDate dateObj.year dateObj.month
      (min s (daysInMonth dateObj.year dateObj.month)))
  | none =>
    match listMax startDays with
    | none => none
    | some s =>
      let prevMonth := (dateObj.month + 11) % 12
      let prevYear := if dateObj.month = 0 then dateObj.year - 1 else dateObj.year
      some (isoDate prevYear prevMonth (min s (daysInMonth prevYear prevMonth)))

/-! ## Lemmas: list maxima and the sorted scan of `getPayPeriodStart` -/

theorem listMax_eq_none_iff (l : List Nat) : listMax l = none ↔ l = [] := by
  cases l with
  | nil => simp [listMax]
  | cons x xs => cases h : listMax xs <;> simp [listMax, h]

theorem listMax_cons (x : Nat) (xs : List Nat) :
    listMax (x :: xs) = match listMax xs with
      | none => some x
      | some y => some (max x y) := rfl

theorem listMax_spec : ∀ (l : List Nat) (m : Nat), listMax l = some m →
    m ∈ l ∧ ∀ x ∈ l, x ≤ m := by
  intro l
  induction l with
  | nil => intro m h; simp [listMax] at h
  | cons x xs ih =>
    intro m h
    rw [listMax_cons] at h
    cases hxs : listMax xs with
    | none =>
      rw [hxs] at h
      have h' : some x = some m := h
      have hxm : x = m := Option.some_inj.mp h'
      subst hxm
      have hempty : xs = [] := (listMax_eq_none_iff xs).mp hxs
      subst hempty
      exact ⟨List.mem_cons_self x [], by
        intro z hz
        rw [List.mem_singleton.mp hz]⟩
    | some y =>
      rw [hxs] at h
      have h' : some (max x y) = some m := h
      obtain ⟨hymem, hyub⟩ := ih y hxs
      have hm : m = max x y := (Option.some_inj.mp h').symm
      subst hm
      constructor
      · rcases max_choice x y with hc | hc
        · rw [hc]; exact List.mem_cons_self x xs
        · rw [hc]; exact List.mem_cons_of_mem x hymem
      · intro z hz
        rcases List.mem_cons.mp hz with hz' | hz'
        · rw [hz']; exact Nat.le_max_left x y
        · exact le_trans (hyub z hz') (Nat.le_max_right x y)

theorem listMax_of_mem_iff (l1 l2 : List Nat) (h : ∀ x, x ∈ l1 ↔ x ∈ l2) :
    listMax l1 = listMax l2 := by
  cases h1 : listMax l1 with
  | none =>
    have he : l1 = [] := (listMax_eq_none_iff l1).mp h1
    subst he
    cases h2 : listMax l2 with
    | none => rfl
    | some m =>
      obtain ⟨hm, -⟩ := listMax_spec l2 m h2
      exact absurd ((h m).mpr hm) (List.not_mem_nil m)
  | some m1 =>
    obtain ⟨hm1, hub1⟩ := listMax_spec l1 m1 h1
    cases h2 : listMax l2 with
    | none =>
      have he : l2 = [] := (listMax_eq_none_iff l2).mp h2
      subst he
      exact absurd ((h m1).mp hm1) (List.not_mem_nil m1)
    | some m2 =>
      obtain ⟨hm2, hub2⟩ := listMax_spec l2 m2 h2
      have hle : m1 ≤ m2 := hub2 m1 ((h m1).mp hm1)
      have hge : m2 ≤ m1 := hub1 m2 ((h m2).mpr hm2)
      rw [Nat.le_antisymm hle hge]

theorem listMax_eq_getLast?_of_sorted :
    ∀ (l : List Nat), l.Sorted (· ≤ ·) → l.getLast? = listMax l := by
  intro l
  induction l with
  | nil => intro _; rfl
  | cons x xs ih =>
    intro hs
    cases xs with
    | nil => rfl
    | cons y ys =>
      have hs' : (y :: ys).Sorted (· ≤ ·) := hs.of_cons
      have hle : ∀ z ∈ y :: ys, x ≤ z := List.rel_of_sorted_cons hs
      rw [List.getLast?_cons_cons, ih hs']
      cases hm : listMax (y :: ys) with
      | none =>
        rw [listMax_eq_none_iff] at hm
        cases hm
      | some m =>
        obtain ⟨hmem, -⟩ := listMax_spec _ m hm
        have hmx : max x m = m := Nat.max_eq_right (hle m hmem)
        rw [listMax_cons, hm]
        simp [hmx]

theorem foldl_choose (day : Nat) :
    ∀ (l : List Nat) (acc : Option Nat),
      l.foldl (fun chosen s => if day ≥ s then some s else chosen) acc
        = ((l.filter (fun s => decide (day ≥ s))).getLast?).or acc := by
  intro l
  induction l with
  | nil => intro acc; rfl
  | cons x xs ih =>
    intro acc
    by_cases hx : day ≥ x
    · rw [List.foldl_cons, if_pos hx, ih,
        List.filter_cons_of_pos (by simpa using hx)]
      cases hf : xs.filter (fun s => decide (day ≥ s)) with
      | nil => simp
      | cons z zs =>
        rw [List.getLast?_cons_cons]
        cases hlast : (z :: zs).getLast? with
        | none => simp at hlast
        | some w => simp [Option.or]
    · rw [List.foldl_cons, if_neg hx, ih,
        List.filter_cons_of_neg (by simpa using hx)]

theorem chooseDay_eq_listMax_filter (day : Nat) (l : List Nat) :
    chooseDay day (List.insertionSort (· ≤ ·) l)
      = listMax (l.filter (fun s => decide (s ≤ day))) := by
  have hsorted := List.sorted_insertionSort (· ≤ ·) l
  have hperm := List.perm_insertionSort (· ≤ ·) l
  rw [chooseDay, foldl_choose, Option.or_none,
    listMax_eq_getLast?_of_sorted _ (hsorted.filter _)]
  apply listMax_of_mem_iff
  intro x
  constructor
  · intro hx
    have := (hperm.filter (fun s => decide (day ≥ s))).mem_iff.mp hx
    simpa [ge_iff_le] using this
  · intro hx
    apply (hperm.filter (fun s => decide (day ≥ s))).mem_iff.mpr
    simpa [ge_iff_le] using hx

theorem getLast?_insertionSort (l : List Nat) :
    (List.insertionSort (· ≤ ·) l).getLast? = listMax l := by
  rw [listMax_eq_getLast?_of_sorted _ (List.sorted_insertionSort _ l)]
  exact listMax_of_mem_iff _ _ (fun x => (List.perm_insertionSort _ l).mem_iff)

theorem getPayPeriodStart_eq_spec (dateObj : JSDate) (l : List Nat) :
    getPayPeriodStart dateObj l = resolvePeriodStartSpec dateObj l := by
  simp only [getPayPeriodStart, resolvePeriodStartSpec,
    chooseDay_eq_listMax_filter, getLast?_insertionSort]
  cases listMax (List.filter (fun s => decide (s ≤ dateObj.day)) l) <;> rfl

/-- Claim C1: on every date and non-empty `startDays` of days in `[1, 31]`
the resolver returns a concrete `YYYY-MM-DD` date, equal to the
specification value (largest configured start day `≤` the day-of-month in
the same month, else the largest start day in the previous month, clamped
to the target month's day count); with `startDays = [1, 15]` the dates
2024-01-10, 2024-01-20 and 2024-01-01 resolve to 2024-01-01, 2024-01-15
and 2024-01-01, and a start day 31 against a 30-day previous month clamps
to that month's last day. -/
theorem C1_getPayPeriodStart_correct :
    (∀ (dateObj : JSDate) (startDays : List Nat), startDays ≠ [] →
      getPayPeriodStart dateObj startDays = resolvePeriodStartSpec dateObj startDays ∧
      ∃ s, getPayPeriodStart dateObj startDays = some s) ∧
    getPayPeriodStart ⟨2024, 0, 10⟩ [1, 15] = some "2024-01-01" ∧
    getPayPeriodStart ⟨2024, 0, 20⟩ [1, 15] = some "2024-01-15" ∧
    getPayPeriodStart ⟨2024, 0, 1⟩ [1, 15] = some "2024-01-01" ∧
    getPayPeriodStart ⟨2024, 4, 5⟩ [31] = some "2024-04-30" := by
  refine ⟨?_, by decide, by decide, by decide, by decide⟩
  intro dateObj startDays hne
  refine ⟨getPayPeriodStart_eq_spec dateObj startDays, ?_⟩
  rw [getPayPeriodStart_eq_spec]
  rw [resolvePeriodStartSpec]
  cases hf : listMax (startDays.filter (fun s => decide (s ≤ dateObj.day))) with
  | some c => exact ⟨_, rfl⟩
  | none =>
    cases hl : listMax startDays with
    | none => exact absurd ((listMax_eq_none_iff startDays).mp hl) hne
    | some c => exact ⟨_, rfl⟩

/-- Witness for C1: the general statement instantiated at 2024-01-10 with
`startDays = [1, 15]`. -/
theorem C1_getPayPeriodStart_correct_witness :
    getPayPeriodStart ⟨2024, 0, 10⟩ [1, 15]
        = resolvePeriodStartSpec ⟨2024, 0, 10⟩ [1, 15] ∧
      ∃ s, getPayPeriodStart ⟨2024, 0, 10⟩ [1, 15] = some s :=
  C1_getPayPeriodStart_correct.1 ⟨2024, 0, 10⟩ [1, 15] (by decide)

/-- Claim C6: `getPayPeriodStart` only depends on the set of values in
`startDays`; reordering and duplicating entries does not change the
result. -/
theorem C6_getPayPeriodStart_set_invariant (dateObj : JSDate) (l1 l2 : List Nat)
    (h : ∀ x, x ∈ l1 ↔ x ∈ l2) :
    getPayPeriodStart dateObj l1 = getPayPeriodStart dateObj l2 := by
  rw [getPayPeriodStart_eq_spec, getPayPeriodStart_eq_spec,
    resolvePeriodStartSpec, resolvePeriodStartSpec]
  have hfilter : listMax (l1.filter (fun s => decide (s ≤ dateObj.day)))
      = listMax (l2.filter (fun s => decide (s ≤ dateObj.day))) := by
    apply listMax_of_mem_iff
    intro x
    simp only [List.mem_filter]
    exact and_congr_left (fun _ => h x)
  have hall : listMax l1 = listMax l2 := listMax_of_mem_iff l1 l2 h
  rw [hfilter, hall]

/-- Witness for C6: `[15, 1, 1]` and `[1, 15]` give the same period start
for 2024-01-20. -/
theorem C6_getPayPeriodStart_set_invariant_witness :
    getPayPeriodStart ⟨2024, 0, 20⟩ [15, 1, 1] = getPayPeriodStart ⟨2024, 0, 20⟩ [1, 15] :=
  C6_getPayPeriodStart_set_invariant ⟨2024, 0, 20⟩ [15, 1, 1] [1, 15] (by
    intro x
    simp only [List.mem_cons, List.not_mem_nil, or_false]
    tauto)

/-! ## Data model (`script.js` storage records) -/

/-- An account record: `{username, password, role, hourlyRate}`. Admin
accounts are created without an `hourlyRate` (`none`); rates are modelled
in `ℚ`. -/
structure Account where
  username : String
  password : String
  role : String
  hourlyRate : Option ℚ := none
deriving DecidableEq, Repr

/-- A work-log record as persisted at punch-out and edited by the admin.
The original punch-out handler stores no `deduction` key; every reader
applies `?? 0` to it, so the absent field is modelled as `0`. -/
structure WorkLog where
  username : String
  date : String
  punchIn : String
  punchOut : String
  minutesWorked : Nat
  payPeriodStart : String
  deduction : Nat := 0
deriving DecidableEq, Repr

/-- A derived summary row. `totalHours` and `totalPay` are produced by
`formatHours`/`toFixed(2)` in the original; their two-decimal decimal
renderings are modelled as rationals rounded to two decimal places. -/
structure SummaryRow where
  period : String
  user : String
  totalHours : ℚ
  totalPay : ℚ
deriving DecidableEq, Repr

/-- Rounding to two decimal places; models `toFixed(2)` (and the
`formatHours` helper, which is `(mins / 60).toFixed(2)`). -/
def round2 (q : ℚ) : ℚ := (round (q * 100) : ℤ) / 100

/-! ## Log aggregation (`generateSummary`, `script.js` lines 466-490) -/

/-- The inner-map update `if (!empMap[u]) empMap[u] = 0; empMap[u] += v`
on an insertion-ordered association list. -/
def bump (m : List (String × Nat)) (u : String) (v : Nat) : List (String × Nat) :=
  match m with
  | [] => [(u, v)]
  | (k, x) :: rest => if k = u then (k, x + v) :: rest else (k, x) :: bump rest u v

/-- The outer-map update of the first loop of `generateSummary`:
`if (!summaryMap[p]) summaryMap[p] = {}` followed by the inner bump. -/
def addLogToMap (sm : List (String × List (String × Nat))) (p u : String) (v : Nat) :
    List (String × List (String × Nat)) :=
  match sm with
  | [] => [(p, [(u, v)])]
  | (k, em) :: rest =>
    if k = p then (k, bump em u v) :: rest else (k, em) :: addLogToMap rest p u v

/-- The map `payPeriodStart -> username -> totalMinutes` built by the
first loop of `generateSummary`. -/
def summaryMap (logs : List WorkLog) : List (String × List (String × Nat)) :=
  logs.foldl (fun sm log => addLogToMap sm log.payPeriodStart log.username log.minutesWorked) []

/-- Embedding of `generateSummary`: sort the periods of the summary map
(JS default string sort = lexicographic), then for each period emit one
row per user in insertion order, paying `totalMins / 60 * rate` where the
rate is `account?.hourlyRate || 0` for the first account with that
username (no role check appears in the source). -/
def generateSummary (logs : List WorkLog) (accounts : List Account) : List SummaryRow :=
  let sm := summaryMap logs
  (List.insertionSort (· ≤ ·) (sm.map (·.1))).flatMap (fun period =>
    (((sm.find? (fun e => e.1 == period)).map (·.2)).getD []).map (fun e =>
      let account := accounts.find? (fun a => a.username == e.1)
      let rate := (account.bind (·.hourlyRate)).getD 0
      { period := period, user := e.1,
        totalHours := round2 ((e.2 : ℚ) / 60),
        totalPay := round2 ((e.2 : ℚ) / 60 * rate) }))

/-- Keep the first occurrence of each element (insertion order of first
appearance), auxiliary with an accumulator of already-seen keys. -/
def dedupFirstAux (seen : List String) : List String → List String
  | [] => []
  | x :: xs => if x ∈ seen then dedupFirstAux seen xs else x :: dedupFirstAux (x :: seen) xs

/-- Keep the first occurrence of each element. -/
def dedupFirst (l : List String) : List String := dedupFirstAux [] l

/-- Total minutes recorded for a `(payPeriodStart, username)` group. -/
def totalMinutes (logs : List WorkLog) (p u : String) : Nat :=
  (((logs.filter (fun l => l.payPeriodStart == p && l.username == u)).map
    (·.minutesWorked))).sum

/-- The aggregator as described by the specification (with the rate rule
the code actually implements): group by period then user, sum
`minutesWorked`, order periods ascending and users by first appearance,
pay `totalMinutes / 60` times the first matching account's `hourlyRate`
(0 when the account is missing or has no rate). -/
def aggregateSpec (logs : List WorkLog) (accounts : List Account) : List SummaryRow :=
  (List.insertionSort (· ≤ ·) (dedupFirst (logs.map (·.payPeriodStart)))).flatMap (fun p =>
    (dedupFirst ((logs.filter (fun l => l.payPeriodStart == p)).map (·.username))).map
      (fun u =>
        let T := totalMinutes logs p u
        let rate := ((accounts.find? (fun a => a.username == u)).bind (·.hourlyRate)).getD 0
        { period := p, user := u,
          totalHours := round2 ((T : ℚ) / 60),
          totalPay := round2 ((T : ℚ) / 60 * rate) }))

/-- The aggregator exactly as claimed, with the role-based rate rule: rate
0 when the account is missing or its role is not `"employee"`. Used to
refute that reading against the implementation. -/
def aggregateSpecRole (logs : List WorkLog) (accounts : List Account) : List SummaryRow :=
  (List.insertionSort (· ≤ ·) (dedupFirst (logs.map (·.payPeriodStart)))).flatMap (fun p =>
    (dedupFirst ((logs.filter (fun l => l.payPeriodStart == p)).map (·.username))).map
      (fun u =>
        let T := totalMinutes logs p u
        let rate : ℚ :=
          match accounts.find? (fun a => a.username == u) with
          | none => 0
          | some a => if a.role == "employee" then a.hourlyRate.getD 0 else 0
        { period := p, user := u,
          totalHours := round2 ((T : ℚ) / 60),
          totalPay := round2 ((T : ℚ) / 60 * rate) }))

/-! ## Lemmas: first-appearance deduplication -/

theorem mem_dedupFirstAux :
    ∀ (l : List String) (seen : List String) (x : String),
      x ∈ dedupFirstAux seen l ↔ x ∈ l ∧ x ∉ seen := by
  intro l
  induction l with
  | nil => intro seen x; simp [dedupFirstAux]
  | cons y ys ih =>
    intro seen x
    by_cases hy : y ∈ seen
    · rw [dedupFirstAux, if_pos hy, ih]
      constructor
      · rintro ⟨hx, hns⟩; exact ⟨List.mem_cons_of_mem y hx, hns⟩
      · rintro ⟨hx, hns⟩
        rcases List.mem_cons.mp hx with hxy | hx'
        · exact absurd (hxy ▸ hy) hns
        · exact ⟨hx', hns⟩
    · rw [dedupFirstAux, if_neg hy]
      constructor
      · intro hx
        rcases List.mem_cons.mp hx with hxy | hx'
        · subst hxy; exact ⟨List.mem_cons_self x ys, hy⟩
        · obtain ⟨h1, h2⟩ := (ih (y :: seen) x).mp hx'
          exact ⟨List.mem_cons_of_mem y h1, fun hs => h2 (List.mem_cons_of_mem y hs)⟩
      · rintro ⟨hx, hns⟩
        rcases List.mem_cons.mp hx with hxy | hx'
        · subst hxy; exact List.mem_cons_self x _
        · by_cases hxy : x = y
          · subst hxy; exact List.mem_cons_self x _
          · exact List.mem_cons_of_mem y ((ih (y :: seen) x).mpr
              ⟨hx', by simp [List.mem_cons, hxy, hns]⟩)

theorem mem_dedupFirst (l : List String) (x : String) :
    x ∈ dedupFirst l ↔ x ∈ l := by
  rw [dedupFirst, mem_dedupFirstAux]
  simp

theorem nodup_dedupFirstAux :
    ∀ (l : List String) (seen : List String), (dedupFirstAux seen l).Nodup := by
  intro l
  induction l with
  | nil => intro seen; simp [dedupFirstAux]
  | cons y ys ih =>
    intro seen
    by_cases hy : y ∈ seen
    · rw [dedupFirstAux, if_pos hy]; exact ih seen
    · rw [dedupFirstAux, if_neg hy]
      refine List.nodup_cons.mpr ⟨?_, ih (y :: seen)⟩
      intro hmem
      exact absurd (List.mem_cons_self y seen)
        ((mem_dedupFirstAux ys (y :: seen) y).mp hmem).2

theorem nodup_dedupFirst (l : List String) : (dedupFirst l).Nodup :=
  nodup_dedupFirstAux l []

theorem dedupFirstAux_append_singleton :
    ∀ (xs : List String) (seen : List String) (x : String),
      dedupFirstAux seen (xs ++ [x])
        = if x ∈ seen ∨ x ∈ xs then dedupFirstAux seen xs
          else dedupFirstAux seen xs ++ [x] := by
  intro xs
  induction xs with
  | nil =>
    intro seen x
    by_cases hx : x ∈ seen <;> simp [dedupFirstAux, hx]
  | cons y ys ih =>
    intro seen x
    by_cases hy : y ∈ seen
    · rw [List.cons_append, dedupFirstAux, if_pos hy, ih seen x,
        dedupFirstAux, if_pos hy]
      by_cases hcl : x ∈ seen ∨ x ∈ ys
      · rw [if_pos hcl, if_pos (by
          rcases hcl with h | h
          · exact Or.inl h
          · exact Or.inr (List.mem_cons_of_mem y h))]
      · rw [if_neg hcl, if_neg (by
          rintro (h | h)
          · exact hcl (Or.inl h)
          · rcases List.mem_cons.mp h with rfl | h'
            · exact hcl (Or.inl hy)
            · exact hcl (Or.inr h'))]
    · rw [List.cons_append, dedupFirstAux, if_neg hy, ih (y :: seen) x,
        dedupFirstAux, if_neg hy]
      by_cases hcl : x ∈ y :: seen ∨ x ∈ ys
      · rw [if_pos hcl, if_pos (by
          rcases hcl with h | h
          · rcases List.mem_cons.mp h with rfl | h'
            · exact Or.inr (List.mem_cons_self x ys)
            · exact Or.inl h'
          · exact Or.inr (List.mem_cons_of_mem y h))]
      · rw [if_neg hcl, if_neg (by
          rintro (h | h)
          · exact hcl (Or.inl (List.mem_cons_of_mem y h))
          · rcases List.mem_cons.mp h with rfl | h'
            · exact hcl (Or.inl (List.mem_cons_self x seen))
            · exact hcl (Or.inr h'))]
        rfl

theorem dedupFirst_append_singleton (xs : List String) (x : String) :
    dedupFirst (xs ++ [x])
      = if x ∈ xs then dedupFirst xs else dedupFirst xs ++ [x] := by
  rw [dedupFirst, dedupFirstAux_append_singleton, dedupFirst]
  simp

/-! ## Lemmas: association-map updates on canonical key-function form -/

theorem bump_map_of_mem (us : List String) (f : String → Nat) (u : String) (v : Nat)
    (hnd : us.Nodup) (hu : u ∈ us) :
    bump (us.map (fun k => (k, f k))) u v
      = us.map (fun k => (k, if k = u then f k + v else f k)) := by
  induction us with
  | nil => cases hu
  | cons k ks ih =>
    obtain ⟨hknotin, hnd'⟩ := List.nodup_cons.mp hnd
    by_cases hk : k = u
    · subst hk
      rw [List.map_cons, List.map_cons, bump, if_pos rfl, if_pos rfl]
      congr 1
      apply List.map_congr_left
      intro a ha
      have hak : a ≠ k := fun h => hknotin (h ▸ ha)
      rw [if_neg hak]
    · have hu' : u ∈ ks := List.mem_of_ne_of_mem (fun h => hk h.symm) hu
      rw [List.map_cons, bump, if_neg hk, List.map_cons, if_neg hk, ih hnd' hu']

theorem bump_map_of_not_mem (us : List String) (f : String → Nat) (u : String) (v : Nat)
    (hu : u ∉ us) :
    bump (us.map (fun k => (k, f k))) u v
      = us.map (fun k => (k, f k)) ++ [(u, v)] := by
  induction us with
  | nil => rfl
  | cons k ks ih =>
    have hk : k ≠ u := fun h => hu (h ▸ List.mem_cons_self k ks)
    rw [List.map_cons, bump, if_neg hk, ih (fun h => hu (List.mem_cons_of_mem k h))]
    rfl

theorem addLogToMap_map_of_mem (ks : List String)
    (g : String → List (String × Nat)) (p u : String) (v : Nat)
    (hnd : ks.Nodup) (hp : p ∈ ks) :
    addLogToMap (ks.map (fun k => (k, g k))) p u v
      = ks.map (fun k => (k, if k = p then bump (g k) u v else g k)) := by
  induction ks with
  | nil => cases hp
  | cons k ks ih =>
    obtain ⟨hknotin, hnd'⟩ := List.nodup_cons.mp hnd
    by_cases hk : k = p
    · subst hk
      rw [List.map_cons, List.map_cons, addLogToMap, if_pos rfl, if_pos rfl]
      congr 1
      apply List.map_congr_left
      intro a ha
      have hak : a ≠ k := fun h => hknotin (h ▸ ha)
      rw [if_neg hak]
    · have hp' : p ∈ ks := List.mem_of_ne_of_mem (fun h => hk h.symm) hp
      rw [List.map_cons, addLogToMap, if_neg hk, List.map_cons, if_neg hk, ih hnd' hp']

theorem addLogToMap_map_of_not_mem (ks : List String)
    (g : String → List (String × Nat)) (p u : String) (v : Nat) (hp : p ∉ ks) :
    addLogToMap (ks.map (fun k => (k, g k))) p u v
      = ks.map (fun k => (k, g k)) ++ [(p, [(u, v)])] := by
  induction ks with
  | nil => rfl
  | cons k ks ih =>
    have hk : k ≠ p := fun h => hp (h ▸ List.mem_cons_self k ks)
    rw [List.map_cons, addLogToMap, if_neg hk, ih (fun h => hp (List.mem_cons_of_mem k h))]
    rfl

theorem find?_map_key {β : Type} (ks : List String) (g : String → β)
    (p : String) (hp : p ∈ ks) :
    (ks.map (fun k => (k, g k))).find? (fun e => e.1 == p) = some (p, g p) := by
  induction ks with
  | nil => cases hp
  | cons k ks ih =>
    by_cases hk : k = p
    · subst hk
      simp [List.find?]
    · rw [List.map_cons, List.find?]
      have : ((k, g k).1 == p) = false := by simp [hk]
      rw [this]
      exact ih (List.mem_of_ne_of_mem (fun h => hk h.symm) hp)

/-! ## Lemmas: the summary map equals its specification -/

/-- The per-period slice of the specification map: users of that period in
first-appearance order with their minute totals. -/
def specInner (logs : List WorkLog) (p : String) : List (String × Nat) :=
  (dedupFirst ((logs.filter (fun lg => lg.payPeriodStart == p)).map (·.username))).map
    (fun u => (u, totalMinutes logs p u))

/-- The summary map described by the specification: periods in
first-appearance order, each with its `specInner` slice. -/
def summarySpecMap (logs : List WorkLog) : List (String × List (String × Nat)) :=
  (dedupFirst (logs.map (·.payPeriodStart))).map (fun p => (p, specInner logs p))

theorem totalMinutes_append_singleton (ls : List WorkLog) (lg : WorkLog) (p u : String) :
    totalMinutes (ls ++ [lg]) p u
      = totalMinutes ls p u
        + (if lg.payPeriodStart = p ∧ lg.username = u then lg.minutesWorked else 0) := by
  unfold totalMinutes
  rw [List.filter_append, List.map_append, List.sum_append]
  congr 1
  by_cases h : lg.payPeriodStart = p ∧ lg.username = u
  · rw [if_pos h]
    simp [List.filter_cons, h.1, h.2]
  · rw [if_neg h]
    rcases not_and_or.mp h with h1 | h1 <;> simp [List.filter_cons, h1]

theorem totalMinutes_eq_zero_of_not_mem (ls : List WorkLog) (p u : String)
    (hu : u ∉ (ls.filter (fun x => x.payPeriodStart == p)).map (·.username)) :
    totalMinutes ls p u = 0 := by
  unfold totalMinutes
  have hfl : ls.filter (fun x => x.payPeriodStart == p && x.username == u) = [] := by
    rw [List.filter_eq_nil_iff]
    intro a ha hpred
    simp only [Bool.and_eq_true, beq_iff_eq] at hpred
    exact hu (List.mem_map.mpr ⟨a, List.mem_filter.mpr ⟨ha, by simp [hpred.1]⟩, hpred.2⟩)
  rw [hfl]
  rfl

theorem specInner_append_ne (ls : List WorkLog) (lg : WorkLog) (q : String)
    (h : lg.payPeriodStart ≠ q) :
    specInner (ls ++ [lg]) q = specInner ls q := by
  unfold specInner
  have hfil : (ls ++ [lg]).filter (fun x => x.payPeriodStart == q)
      = ls.filter (fun x => x.payPeriodStart == q) := by
    rw [List.filter_append]
    simp [List.filter_cons, h]
  rw [hfil]
  apply List.map_congr_left
  intro u hu
  rw [totalMinutes_append_singleton, if_neg (fun hc => h hc.1), Nat.add_zero]

theorem specInner_append_self (ls : List WorkLog) (lg : WorkLog) :
    specInner (ls ++ [lg]) lg.payPeriodStart
      = bump (specInner ls lg.payPeriodStart) lg.username lg.minutesWorked := by
  unfold specInner
  have hfil : (ls ++ [lg]).filter (fun x => x.payPeriodStart == lg.payPeriodStart)
      = ls.filter (fun x => x.payPeriodStart == lg.payPeriodStart) ++ [lg] := by
    rw [List.filter_append]
    simp [List.filter_cons]
  rw [hfil, List.map_append, List.map_cons, List.map_nil, dedupFirst_append_singleton]
  by_cases hu : lg.username
      ∈ (ls.filter (fun x => x.payPeriodStart == lg.payPeriodStart)).map (·.username)
  · rw [if_pos hu,
      bump_map_of_mem _ _ _ _ (nodup_dedupFirst _) ((mem_dedupFirst _ _).mpr hu)]
    apply List.map_congr_left
    intro w hw
    rw [totalMinutes_append_singleton]
    by_cases hwu : w = lg.username
    · rw [if_pos ⟨rfl, hwu.symm⟩, if_pos hwu]
    · rw [if_neg (fun hc => hwu hc.2.symm), if_neg hwu, Nat.add_zero]
  · rw [if_neg hu, List.map_append, List.map_cons, List.map_nil,
      bump_map_of_not_mem _ _ _ _ (fun hmem => hu ((mem_dedupFirst _ _).mp hmem))]
    congr 1
    · apply List.map_congr_left
      intro w hw
      have hwU : w ∈ (ls.filter
          (fun x => x.payPeriodStart == lg.payPeriodStart)).map (·.username) :=
        (mem_dedupFirst _ _).mp hw
      have hwu : w ≠ lg.username := fun h => hu (h ▸ hwU)
      rw [totalMinutes_append_singleton, if_neg (fun hc => hwu hc.2.symm), Nat.add_zero]
    · rw [totalMinutes_append_singleton, if_pos ⟨rfl, rfl⟩,
        totalMinutes_eq_zero_of_not_mem ls _ _ hu, Nat.zero_add]

theorem summarySpecMap_append_singleton (ls : List WorkLog) (lg : WorkLog) :
    summarySpecMap (ls ++ [lg])
      = addLogToMap (summarySpecMap ls) lg.payPeriodStart lg.username lg.minutesWorked := by
  unfold summarySpecMap
  rw [List.map_append, List.map_cons, List.map_nil, dedupFirst_append_singleton]
  by_cases hp : lg.payPeriodStart ∈ ls.map (·.payPeriodStart)
  · rw [if_pos hp,
      addLogToMap_map_of_mem _ _ _ _ _ (nodup_dedupFirst _) ((mem_dedupFirst _ _).mpr hp)]
    apply List.map_congr_left
    intro q hq
    by_cases hqp : q = lg.payPeriodStart
    · subst hqp
      rw [if_pos rfl, specInner_append_self]
    · rw [if_neg hqp, specInner_append_ne ls lg q (fun h => hqp h.symm)]
  · rw [if_neg hp, List.map_append, List.map_cons, List.map_nil,
      addLogToMap_map_of_not_mem _ _ _ _ _ (fun hm => hp ((mem_dedupFirst _ _).mp hm))]
    congr 1
    · apply List.map_congr_left
      intro q hq
      have hqP : q ∈ ls.map (·.payPeriodStart) := (mem_dedupFirst _ _).mp hq
      have hqp : q ≠ lg.payPeriodStart := fun h => hp (h ▸ hqP)
      rw [specInner_append_ne ls lg q (fun h => hqp h.symm)]
    · have hfl : ls.filter (fun x => x.payPeriodStart == lg.payPeriodStart) = [] := by
        rw [List.filter_eq_nil_iff]
        intro a ha hpred
        exact hp (List.mem_map.mpr ⟨a, ha, by simpa using hpred⟩)
      have hzero : totalMinutes ls lg.payPeriodStart lg.username = 0 :=
        totalMinutes_eq_zero_of_not_mem ls _ _ (by rw [hfl]; simp)
      rw [specInner]
      rw [List.filter_append, hfl, List.nil_append]
      have hfl2 : List.filter (fun x => x.payPeriodStart == lg.payPeriodStart) [lg]
          = [lg] := by simp [List.filter_cons]
      rw [hfl2, List.map_cons, List.map_nil]
      rw [show dedupFirst [lg.username] = [lg.username] from rfl]
      rw [List.map_cons, List.map_nil, totalMinutes_append_singleton,
        if_pos ⟨rfl, rfl⟩, hzero, Nat.zero_add]

theorem summaryMap_append_singleton (ls : List WorkLog) (lg : WorkLog) :
    summaryMap (ls ++ [lg])
      = addLogToMap (summaryMap ls) lg.payPeriodStart lg.username lg.minutesWorked := by
  rw [summaryMap, List.foldl_append]
  rfl

theorem summaryMap_eq_spec (logs : List WorkLog) :
    summaryMap logs = summarySpecMap logs := by
  induction logs using List.reverseRecOn with
  | nil => rfl
  | append_singleton ls lg ih =>
    rw [summaryMap_append_singleton, summarySpecMap_append_singleton, ih]

theorem find?_map_key_not_mem {β : Type} (ks : List String) (g : String → β)
    (p : String) (hp : p ∉ ks) :
    (ks.map (fun k => (k, g k))).find? (fun e => e.1 == p) = none := by
  induction ks with
  | nil => rfl
  | cons k ks ih =>
    have hk : k ≠ p := fun h => hp (h ▸ List.mem_cons_self k ks)
    rw [List.map_cons, List.find?]
    have hg : ((k, g k).1 == p) = false := by simp [hk]
    rw [hg]
    exact ih (fun h => hp (List.mem_cons_of_mem k h))

theorem flatMap_congr_mem {α β : Type} (l : List α) (f g : α → List β)
    (h : ∀ a ∈ l, f a = g a) : l.flatMap f = l.flatMap g := by
  induction l with
  | nil => rfl
  | cons x xs ih =>
    rw [List.flatMap_cons, List.flatMap_cons, h x (List.mem_cons_self x xs),
      ih (fun a ha => h a (List.mem_cons_of_mem x ha))]

theorem summarySpecMap_keys (logs : List WorkLog) :
    (summarySpecMap logs).map (·.1) = dedupFirst (logs.map (·.payPeriodStart)) := by
  rw [summarySpecMap, List.map_map]
  exact List.map_id _

theorem generateSummary_eq_aggregateSpec (logs : List WorkLog) (accounts : List Account) :
    generateSummary logs accounts = aggregateSpec logs accounts := by
  simp only [generateSummary, aggregateSpec]
  rw [summaryMap_eq_spec, summarySpecMap_keys]
  apply flatMap_congr_mem
  intro p hp
  have hpmem : p ∈ dedupFirst (logs.map (·.payPeriodStart)) :=
    (List.perm_insertionSort (· ≤ ·) _).mem_iff.mp hp
  rw [summarySpecMap, find?_map_key _ _ _ hpmem]
  simp only [Option.map_some', Option.getD_some]
  rw [specInner, List.map_map]
  rfl

theorem pairwise_period_flatMap (periods : List String) (f : String → List SummaryRow)
    (hsort : periods.Pairwise (· ≤ ·))
    (hperiod : ∀ p r, r ∈ f p → r.period = p) :
    (periods.flatMap f).Pairwise (fun r1 r2 => r1.period ≤ r2.period) := by
  induction periods with
  | nil => simp
  | cons p ps ih =>
    rw [List.flatMap_cons]
    apply List.pairwise_append.mpr
    refine ⟨?_, ih (List.Pairwise.of_cons hsort), ?_⟩
    · apply List.pairwise_of_forall_mem_list
      intro a ha b hb
      rw [hperiod p a ha, hperiod p b hb]
    · intro a ha b hb
      obtain ⟨q, hq, hbq⟩ := List.mem_flatMap.mp hb
      rw [hperiod p a ha, hperiod q b hbq]
      exact List.rel_of_pairwise_cons hsort hq

/-- Claim C2 (amended): `generateSummary` groups logs by `payPeriodStart`
then by `username`, sums `minutesWorked` per group with no re-subtraction
of deductions, pays `totalMinutes / 60` times the first matching account's
`hourlyRate` (0 when the account is missing or has no rate - the account's
role is not consulted), rounded to two decimals; periods appear in
ascending order and users within a period in first-appearance order. -/
theorem C2_generateSummary_spec (logs : List WorkLog) (accounts : List Account) :
    generateSummary logs accounts = aggregateSpec logs accounts ∧
    (generateSummary logs accounts).Pairwise (fun r1 r2 => r1.period ≤ r2.period) := by
  refine ⟨generateSummary_eq_aggregateSpec logs accounts, ?_⟩
  rw [generateSummary_eq_aggregateSpec, aggregateSpec]
  apply pairwise_period_flatMap
  · exact List.sorted_insertionSort (· ≤ ·) _
  · intro p r hr
    obtain ⟨u, hu, hru⟩ := List.mem_map.mp hr
    rw [← hru]

/-- Claim C2 as stated is false on the code: the rate lookup ignores the
account's role, so a non-employee account that carries an `hourlyRate` is
paid at that rate instead of 0. With one 60-minute log for `"alice"` and a
single account `{username := "alice", role := "admin", hourlyRate := 5}`
the code pays 5.00 while the claimed role rule pays 0.00. -/
theorem C2_generateSummary_role_counterexample :
    generateSummary
        [⟨"alice", "2024-01-02", "09:00", "10:00", 60, "2024-01-01", 0⟩]
        [⟨"alice", "pw", "admin", some 5⟩]
      ≠ aggregateSpecRole
        [⟨"alice", "2024-01-02", "09:00", "10:00", 60, "2024-01-01", 0⟩]
        [⟨"alice", "pw", "admin", some 5⟩] ∧
    (generateSummary
        [⟨"alice", "2024-01-02", "09:00", "10:00", 60, "2024-01-01", 0⟩]
        [⟨"alice", "pw", "admin", some 5⟩]).map (·.totalPay) = [5] ∧
    (aggregateSpecRole
        [⟨"alice", "2024-01-02", "09:00", "10:00", 60, "2024-01-01", 0⟩]
        [⟨"alice", "pw", "admin", some 5⟩]).map (·.totalPay) = [0] := by
  with_unfolding_all decide

/-! ## Claim C5: linearity of aggregation -/

/-- The minute total the aggregation map records for a `(period, user)`
pair (0 when absent). -/
def lookupTotal (sm : List (String × List (String × Nat))) (p u : String) : Nat :=
  (((((sm.find? (fun e => e.1 == p)).map (·.2)).getD []).find?
    (fun e => e.1 == u)).map (·.2)).getD 0

theorem lookupTotal_summaryMap (logs : List WorkLog) (p u : String) :
    lookupTotal (summaryMap logs) p u = totalMinutes logs p u := by
  rw [lookupTotal, summaryMap_eq_spec, summarySpecMap]
  by_cases hp : p ∈ dedupFirst (logs.map (·.payPeriodStart))
  · rw [find?_map_key _ _ _ hp]
    simp only [Option.map_some', Option.getD_some]
    rw [specInner]
    by_cases hu : u ∈ dedupFirst
        ((logs.filter (fun lg => lg.payPeriodStart == p)).map (·.username))
    · rw [find?_map_key _ _ _ hu]
      simp
    · rw [find?_map_key_not_mem _ _ _ hu]
      simp only [Option.map_none', Option.getD_none]
      exact (totalMinutes_eq_zero_of_not_mem logs p u
        (fun h => hu ((mem_dedupFirst _ _).mpr h))).symm
  · rw [find?_map_key_not_mem _ _ _ hp]
    simp only [Option.map_none', Option.getD_none, List.find?_nil]
    have hfl : logs.filter (fun x => x.payPeriodStart == p) = [] := by
      rw [List.filter_eq_nil_iff]
      intro a ha hpred
      exact hp ((mem_dedupFirst _ _).mpr
        (List.mem_map.mpr ⟨a, ha, by simpa using hpred⟩))
    exact (totalMinutes_eq_zero_of_not_mem logs p u (by rw [hfl]; simp)).symm

theorem totalMinutes_append (l1 l2 : List WorkLog) (p u : String) :
    totalMinutes (l1 ++ l2) p u = totalMinutes l1 p u + totalMinutes l2 p u := by
  unfold totalMinutes
  rw [List.filter_append, List.map_append, List.sum_append]

theorem totalMinutes_perm (l1 l2 : List WorkLog) (h : l1.Perm l2) (p u : String) :
    totalMinutes l1 p u = totalMinutes l2 p u :=
  ((h.filter _).map _).sum_eq

/-- Claim C5: aggregation is linear: splitting a log collection into two
disjoint parts, aggregating each and adding the per-(period, user) minute
totals gives the totals of aggregating the whole collection; aggregating
the empty collection yields no rows. -/
theorem C5_aggregate_linear :
    (∀ (logs l1 l2 : List WorkLog), logs.Perm (l1 ++ l2) →
      ∀ p u, lookupTotal (summaryMap logs) p u
        = lookupTotal (summaryMap l1) p u + lookupTotal (summaryMap l2) p u) ∧
    ∀ accounts : List Account, generateSummary [] accounts = [] := by
  refine ⟨?_, fun _ => rfl⟩
  intro logs l1 l2 hperm p u
  rw [lookupTotal_summaryMap, lookupTotal_summaryMap, lookupTotal_summaryMap,
    totalMinutes_perm _ _ hperm, totalMinutes_append]

/-- Witness for C5: an interleaved two-log split evaluated at the touched
group. -/
theorem C5_aggregate_linear_witness :
    lookupTotal (summaryMap
        [⟨"a", "d", "09:00", "10:00", 60, "2024-01-01", 0⟩,
         ⟨"a", "d", "10:00", "11:00", 30, "2024-01-01", 0⟩]) "2024-01-01" "a"
      = lookupTotal (summaryMap
          [⟨"a", "d", "10:00", "11:00", 30, "2024-01-01", 0⟩]) "2024-01-01" "a"
        + lookupTotal (summaryMap
          [⟨"a", "d", "09:00", "10:00", 60, "2024-01-01", 0⟩]) "2024-01-01" "a" :=
  C5_aggregate_linear.1
    [⟨"a", "d", "09:00", "10:00", 60, "2024-01-01", 0⟩,
     ⟨"a", "d", "10:00", "11:00", 30, "2024-01-01", 0⟩]
    [⟨"a", "d", "10:00", "11:00", 30, "2024-01-01", 0⟩]
    [⟨"a", "d", "09:00", "10:00", 60, "2024-01-01", 0⟩]
    (by decide) "2024-01-01" "a"

/-! ## Application state and the punch-out transition
(`script.js` lines 712-764, 215-225, 821-833) -/

/-- The pay-period settings record `{ startDays: [...] }`. -/
structure PaySettings where
  startDays : List Nat
deriving DecidableEq, Repr

/-- An open punch session `{ date, punchIn }` as stored in `currentPunch`. -/
structure PunchSession where
  date : String
  punchIn : String
deriving DecidableEq, Repr

/-- The stored application state: accounts, logs, pay settings and the
per-user punch-session map. -/
structure AppState where
  accounts : List Account
  logs : List WorkLog
  paySettings : PaySettings
  currentPunch : List (String × PunchSession)
deriving DecidableEq, Repr

/-- `currentPunchMap[username]` on the association-list model. -/
def lookupPunch (m : List (String × PunchSession)) (k : String) : Option PunchSession :=
  (m.find? (fun e => e.1 == k)).map (·.2)

/-- `delete currentPunchMap[username]`. -/
def erasePunch (m : List (String × PunchSession)) (k : String) :
    List (String × PunchSession) :=
  m.filter (fun e => e.1 != k)

/-- A punch-out instant: the calendar date (read via `toISOString`) and
the wall-clock `"HH:MM"` string (read via `toTimeString().slice(0, 5)`). -/
structure Moment where
  date : JSDate
  timeStr : String

/-- Embedding of the punch-out click handler. The handler reads the pay
settings from storage inside `try/catch`, falling back to `[1, 15]` when
the read fails; `settingsFetch` models that read (`Except.ok
st.paySettings` when storage works). Returns the new state together with
an error flag (`true` = the `'No punch in record found for today.'` alert
was shown and nothing was written). The stored log carries no `deduction`
key, read everywhere as 0 and modelled as 0. The `getD` defaults are
unreachable for the states the app creates (sessions store well-formed
`"HH:MM"` times and validated settings are non-empty). -/
def punchOut (st : AppState) (settingsFetch : Except Unit PaySettings)
    (username : String) (now : Moment) : AppState × Bool :=
  let timeOutStr := now.timeStr
  let today := isoDate now.date.year now.date.month now.date.day
  match lookupPunch st.currentPunch username with
  | none => (st, true)
  | some punchRecord =>
    if punchRecord.date ≠ today then (st, true)
    else
      let timeInStr := punchRecord.punchIn
      let minutesWorked := (computeWorkedMinutes timeInStr timeOutStr 0).getD 0
      let startDays :=
        match settingsFetch with
        | Except.ok settings => settings.startDays
        | Except.error _ => [1, 15]
      let payPeriodStart := (getPayPeriodStart now.date startDays).getD ""
      let newLog : WorkLog :=
        { username := username, date := today, punchIn := timeInStr,
          punchOut := timeOutStr, minutesWorked := minutesWorked,
          payPeriodStart := payPeriodStart, deduction := 0 }
      let newState : AppState :=
        { st with logs := st.logs ++ [newLog],
                  currentPunch := erasePunch st.currentPunch username }
      (newState, false)

/-- The fields `Storage.updateLog` merges into a log (the admin deduction
editor always passes `{minutesWorked, deduction}`). -/
structure LogUpdate where
  minutesWorked : Nat
  deduction : Nat
deriving DecidableEq, Repr

/-- Embedding of `Storage.updateLog` (localStorage branch): update the log
at index `logId` when `0 <= logId < logs.length`, and otherwise do
nothing - the function returns normally either way, with no error
signal. -/
def updateLog (logs : List WorkLog) (logId : Int) (upd : LogUpdate) : List WorkLog :=
  if h : 0 ≤ logId ∧ logId < (logs.length : Int) then
    let i : Fin logs.length := ⟨logId.toNat, by omega⟩
    logs.set i { logs.get i with
      minutesWorked := upd.minutesWorked, deduction := upd.deduction }
  else logs

/-- Embedding of the save-pay-period click handler: trim the input, split
on `','`, parse each trimmed entry with `parseInt`, keep the values in
`[1, 31]`; reject (message, no write) only when nothing remains, else sort
ascending and save. Returns the new state and whether a save happened. -/
def savePayPeriod (st : AppState) (input : String) : AppState × Bool :=
  let parts := ((splitOnChar ',' (trimChars input.data)).map
      (fun s => jsParseInt (trimChars s))).filterMap
    (fun n? => n?.bind (fun n => if 1 ≤ n ∧ n ≤ 31 then some n else none))
  if parts = [] then (st, false)
  else ({ st with paySettings :=
      ⟨(List.insertionSort (· ≤ ·) parts).map Int.toNat⟩ }, true)

/-- The day values the specification calls valid in a pay-period input:
the comma-separated entries whose trimmed text parses to an integer in
`[1, 31]`. -/
def validDays (input : String) : List Int :=
  (splitOnChar ',' (trimChars input.data)).filterMap
    (fun s => (jsParseInt (trimChars s)).bind
      (fun n => if 1 ≤ n ∧ n ≤ 31 then some n else none))

theorem getPayPeriodStart_isSome (dateObj : JSDate) (l : List Nat) (hne : l ≠ []) :
    ∃ s, getPayPeriodStart dateObj l = some s := by
  rw [getPayPeriodStart_eq_spec, resolvePeriodStartSpec]
  cases hf : listMax (l.filter (fun s => decide (s ≤ dateObj.day))) with
  | some c => exact ⟨_, rfl⟩
  | none =>
    cases hl : listMax l with
    | none => exact absurd ((listMax_eq_none_iff l).mp hl) hne
    | some c => exact ⟨_, rfl⟩

/-- Claim C3: punch-out with no session whose date is today reports the
error and changes nothing; with such a session it appends exactly one
work log carrying today's date, the session's punch-in time, the punch-out
time, `computeWorkedMinutes` of the two times, the period start from the
current settings and deduction 0, and clears only that user's session. -/
theorem C3_punchOut_spec :
    (∀ (st : AppState) (username : String) (now : Moment),
      (∀ sess, lookupPunch st.currentPunch username = some sess →
        sess.date ≠ isoDate now.date.year now.date.month now.date.day) →
      punchOut st (Except.ok st.paySettings) username now = (st, true)) ∧
    (∀ (st : AppState) (username : String) (now : Moment) (sess : PunchSession),
      lookupPunch st.currentPunch username = some sess →
      sess.date = isoDate now.date.year now.date.month now.date.day →
      wellFormedHHMM sess.punchIn → wellFormedHHMM now.timeStr →
      st.paySettings.startDays ≠ [] →
      ∃ mw pps,
        computeWorkedMinutes sess.punchIn now.timeStr 0 = some mw ∧
        getPayPeriodStart now.date st.paySettings.startDays = some pps ∧
        punchOut st (Except.ok st.paySettings) username now
          = (⟨st.accounts,
              st.logs ++ [⟨username, isoDate now.date.year now.date.month now.date.day,
                sess.punchIn, now.timeStr, mw, pps, 0⟩],
              st.paySettings, erasePunch st.currentPunch username⟩, false)) := by
  constructor
  · intro st username now h
    cases hl : lookupPunch st.currentPunch username with
    | none => simp [punchOut, hl]
    | some sess =>
      have hne := h sess hl
      simp [punchOut, hl, hne]
  · intro st username now sess hl hdate hwf1 hwf2 hne
    obtain ⟨h1, m1, -, -, e1⟩ := hwf1
    obtain ⟨h2, m2, -, -, e2⟩ := hwf2
    have hmw : ∃ mw, computeWorkedMinutes sess.punchIn now.timeStr 0 = some mw := by
      rw [e1, e2]
      simp only [computeWorkedMinutes, timeToMinutes_mkHHMM]
      exact ⟨_, rfl⟩
    obtain ⟨mw, hmw⟩ := hmw
    obtain ⟨pps, hpps⟩ := getPayPeriodStart_isSome now.date st.paySettings.startDays hne
    refine ⟨mw, pps, hmw, hpps, ?_⟩
    simp only [punchOut, hl]
    rw [if_neg (not_not_intro hdate)]
    simp only [hmw, hpps, Option.getD_some]

/-- Witness for C3: a successful same-day punch-out evaluated on a
one-session state. -/
theorem C3_punchOut_spec_witness :
    ∃ mw pps,
      computeWorkedMinutes "09:00" "17:00" 0 = some mw ∧
      getPayPeriodStart ⟨2024, 0, 10⟩ [1, 15] = some pps ∧
      punchOut ⟨[], [], ⟨[1, 15]⟩, [("bob", ⟨"2024-01-10", "09:00"⟩)]⟩
          (Except.ok ⟨[1, 15]⟩) "bob" ⟨⟨2024, 0, 10⟩, "17:00"⟩
        = (⟨[], [] ++ [⟨"bob", isoDate 2024 0 10, "09:00", "17:00", mw, pps, 0⟩],
            ⟨[1, 15]⟩, erasePunch [("bob", ⟨"2024-01-10", "09:00"⟩)] "bob"⟩, false) :=
  C3_punchOut_spec.2 ⟨[], [], ⟨[1, 15]⟩, [("bob", ⟨"2024-01-10", "09:00"⟩)]⟩ "bob"
    ⟨⟨2024, 0, 10⟩, "17:00"⟩ ⟨"2024-01-10", "09:00"⟩ (by decide) (by decide)
    ⟨9, 0, by decide, by decide, by decide⟩ ⟨17, 0, by decide, by decide, by decide⟩
    (by decide)

/-- Claim C7 (amended): the pay-period save is rejected - with a message
and no change to the stored settings - exactly when no comma-separated
entry parses (via `parseInt` of its trimmed text) to an integer in
`[1, 31]`; otherwise the entries that do parse into range are saved,
sorted ascending, and entries failing validation are silently dropped, so
a partial (valid-subset) save does occur on mixed input. -/
theorem C7_savePayPeriod_spec (st : AppState) (input : String) :
    (validDays input = [] → savePayPeriod st input = (st, false)) ∧
    (validDays input ≠ [] →
      savePayPeriod st input
        = (⟨st.accounts, st.logs,
            ⟨(List.insertionSort (· ≤ ·) (validDays input)).map Int.toNat⟩,
            st.currentPunch⟩, true)) := by
  have hparts : ((splitOnChar ',' (trimChars input.data)).map
        (fun s => jsParseInt (trimChars s))).filterMap
      (fun n? => n?.bind (fun n => if 1 ≤ n ∧ n ≤ 31 then some n else none))
      = validDays input := by
    rw [List.filterMap_map]
    rfl
  constructor
  · intro h
    simp only [savePayPeriod, hparts]
    rw [if_pos h]
  · intro h
    simp only [savePayPeriod, hparts]
    rw [if_neg h]

/-- Witness for C7: the accepting branch evaluated at input `"20,5"`. -/
theorem C7_savePayPeriod_spec_witness :
    savePayPeriod ⟨[], [], ⟨[1, 15]⟩, []⟩ "20,5"
      = (⟨[], [],
          ⟨(List.insertionSort (· ≤ ·) (validDays "20,5")).map Int.toNat⟩,
          []⟩, true) :=
  (C7_savePayPeriod_spec ⟨[], [], ⟨[1, 15]⟩, []⟩ "20,5").2 (by decide)

/-- Claim C7 as stated is false on the code: the input `"5,abc"` contains
a non-numeric entry, so the claim demands rejection with the stored
settings unchanged, but the handler saves the partial valid subset `[5]`
and reports success. -/
theorem C7_savePayPeriod_counterexample :
    savePayPeriod ⟨[], [], ⟨[1, 15]⟩, []⟩ "5,abc" = (⟨[], [], ⟨[5]⟩, []⟩, true) ∧
    (⟨[], [], ⟨[1, 15]⟩, []⟩ : AppState).paySettings ≠ ⟨[5]⟩ := by
  decide

/-- Claim C8 (amended): the two storage flows behave leniently rather than
signalling: `updateLog` with an index matching no stored log returns with
no change and no error signal, and punch-out with a failing settings read
proceeds exactly as if the settings were the default `{startDays := [1,
15]}` instead of propagating the failure. -/
theorem C8_updateLog_punchOut_lenient :
    (∀ (logs : List WorkLog) (logId : Int) (upd : LogUpdate),
      ¬(0 ≤ logId ∧ logId < (logs.length : Int)) → updateLog logs logId upd = logs) ∧
    (∀ (st : AppState) (username : String) (now : Moment),
      punchOut st (Except.error ()) username now
        = punchOut st (Except.ok ⟨[1, 15]⟩) username now) := by
  constructor
  · intro logs logId upd h
    rw [updateLog, dif_neg h]
  · intro st username now
    rfl

/-- Witness for C8: the out-of-range update instantiated on the empty log
store. -/
theorem C8_updateLog_punchOut_lenient_witness :
    updateLog [] 0 ⟨1, 1⟩ = [] :=
  C8_updateLog_punchOut_lenient.1 [] 0 ⟨1, 1⟩ (by decide)

/-- Claim C8 as stated is false on the code: `updateLog` at index 5 of a
one-element store completes as a silent no-op with no error signal, and a
punch-out whose settings read fails still succeeds (error flag `false`),
writing a log whose `payPeriodStart` comes from the default `[1, 15]`
rather than the stored settings `[10]`. -/
theorem C8_storage_error_counterexample :
    updateLog [⟨"a", "d", "09:00", "10:00", 60, "p", 0⟩] 5 ⟨30, 30⟩
      = [⟨"a", "d", "09:00", "10:00", 60, "p", 0⟩] ∧
    (punchOut ⟨[], [], ⟨[10]⟩, [("bob", ⟨"2024-01-10", "09:00"⟩)]⟩
        (Except.error ()) "bob" ⟨⟨2024, 0, 10⟩, "17:00"⟩).2 = false ∧
    (punchOut ⟨[], [], ⟨[10]⟩, [("bob", ⟨"2024-01-10", "09:00"⟩)]⟩
        (Except.error ()) "bob" ⟨⟨2024, 0, 10⟩, "17:00"⟩).1.logs
      = [⟨"bob", "2024-01-10", "09:00", "17:00", 480, "2024-01-01", 0⟩] := by
  decide
